import Mathlib

/-!
Shallow embedding of `calendar_generator.py` (field parsers, table
standardizer, record loader, grid builder, color assigner) together with
theorems checking the specification's claims against these definitions.
Machine-level details are modelled over `Nat`, `List` and `String`;
fallible code returns `Except`.
-/

namespace CalendarGen

deriving instance DecidableEq for Except

/-- Error taxonomy of the pipeline.  The Python source raises
`ValueError` / `FileNotFoundError` with messages; the spec names the
conditions `UnrecognizedDay`, `UnrecognizedTime`, `InsufficientColumns`,
`NoInputFiles`, `NoValidRecords`.  `TimeFieldOutOfRange` is the
`ValueError` raised by the `time(hh, mm, 0)` constructor for an
out-of-range hour or minute. -/
inductive Err
  | UnrecognizedDay (raw : String)
  | UnrecognizedTime (raw : String)
  | TimeFieldOutOfRange (raw : String)
  | InsufficientColumns
  | NoInputFiles
  | NoValidRecords
deriving DecidableEq, Repr

/-- Python `str.strip`: drop leading and trailing whitespace. -/
def trimChars (cs : List Char) : List Char :=
  ((cs.dropWhile Char.isWhitespace).reverse.dropWhile Char.isWhitespace).reverse

/-- `str.strip` on a `String` (core `String.trim` does not reduce well in
the kernel, so this works on the character list). -/
def strTrim (s : String) : String := String.mk (trimChars s.data)

/-- `str.lower` (ASCII, which is all the alias table needs). -/
def strLower (s : String) : String := String.mk (s.data.map Char.toLower)

-- ==========================================================
-- Field parser: normalize_day
-- ==========================================================

/-- `DAY_ALIASES` from the source, in source order. -/
def DAY_ALIASES : List (String × String) := [
  ("mon", "Monday"), ("monday", "Monday"),
  ("tue", "Tuesday"), ("tues", "Tuesday"), ("tuesday", "Tuesday"),
  ("wed", "Wednesday"), ("weds", "Wednesday"), ("wednesday", "Wednesday"),
  ("thu", "Thursday"), ("thur", "Thursday"), ("thurs", "Thursday"), ("thursday", "Thursday"),
  ("fri", "Friday"), ("friday", "Friday"),
  ("sat", "Saturday"), ("saturday", "Saturday"),
  ("sun", "Sunday"), ("sunday", "Sunday")]

/-- The canonicalization inside `normalize_day`:
`s = str(val).strip().lower()` followed by `re.sub(r"[^a-z]", "", s)`. -/
def canonDay (s : String) : String :=
  String.mk (((trimChars s.data).map Char.toLower).filter
    (fun c => decide ('a' ≤ c ∧ c ≤ 'z')))

/-- `normalize_day`: canonicalize, look the result up in `DAY_ALIASES`,
else (when at least 3 letters remain) look up the first three letters;
otherwise raise `UnrecognizedDay`. -/
def normalize_day (val : String) : Except Err String :=
  let s := canonDay val
  match DAY_ALIASES.lookup s with
  | some d => .ok d
  | none =>
    if 3 ≤ s.length then
      match DAY_ALIASES.lookup (String.mk (s.data.take 3)) with
      | some d => .ok d
      | none => .error (.UnrecognizedDay val)
    else .error (.UnrecognizedDay val)

-- ==========================================================
-- Field parser: parse_time
-- ==========================================================

/-- `datetime.time` values: hour, minute, second.  The source constructs
them only with `second = 0`. -/
structure TimeOfDay where
  hour : Nat
  minute : Nat
  second : Nat
deriving DecidableEq, Repr

/-- A raw spreadsheet cell as the loader sees it: missing (`NaN`), a
native date-time, a native time-of-day, or a string. -/
inductive Cell
  | na
  | dt (year month day hour minute second : Nat)
  | tod (hour minute second : Nat)
  | str (s : String)
deriving DecidableEq, Repr

/-- `%02d` formatting. -/
def pad2 (n : Nat) : String := if n < 10 then "0" ++ toString n else toString n

/-- `%04d` formatting (for the year in `str(datetime)`). -/
def pad4 (n : Nat) : String :=
  if n < 10 then "000" ++ toString n
  else if n < 100 then "00" ++ toString n
  else if n < 1000 then "0" ++ toString n
  else toString n

/-- Python `str(val)` on a cell: `str(nan) = "nan"`,
`str(time(h, m, s)) = "HH:MM:SS"`,
`str(datetime(...)) = "YYYY-MM-DD HH:MM:SS"`. -/
def cellStr : Cell → String
  | .na => "nan"
  | .tod h m s => pad2 h ++ ":" ++ pad2 m ++ ":" ++ pad2 s
  | .dt y mo d h mi s =>
    pad4 y ++ "-" ++ pad2 mo ++ "-" ++ pad2 d ++ " " ++
      pad2 h ++ ":" ++ pad2 mi ++ ":" ++ pad2 s
  | .str s => s

def digitVal (c : Char) : Nat := c.toNat - '0'.toNat

/-- After the hour and its `':'` have been consumed: exactly two minute
digits, optionally followed by `':'` and exactly two second digits
(the regex groups `(\d{2})(?::(\d{2}))?$`; seconds are discarded). -/
def parseMM (hh : Nat) : List Char → Option (Nat × Nat)
  | [m1, m2] =>
    if m1.isDigit && m2.isDigit then some (hh, 10 * digitVal m1 + digitVal m2) else none
  | [m1, m2, ':', s1, s2] =>
    if m1.isDigit && m2.isDigit && s1.isDigit && s2.isDigit then
      some (hh, 10 * digitVal m1 + digitVal m2)
    else none
  | _ => none

/-- The anchored regex `^(\d{1,2}):(\d{2})(?::(\d{2}))?$` (the `\s*`
paddings are vacuous after `strip`): one or two hour digits, then `':'`,
then minutes/seconds. -/
def parseClock : List Char → Option (Nat × Nat)
  | c1 :: ':' :: rest =>
    if c1.isDigit then parseMM (digitVal c1) rest else none
  | c1 :: c2 :: ':' :: rest =>
    if c1.isDigit && c2.isDigit then parseMM (10 * digitVal c1 + digitVal c2) rest
    else none
  | _ => none

/-- `str.replace(".", ":")` (the pattern is a single character). -/
def replaceDot (s : String) : String :=
  String.mk (s.data.map (fun c => if c = '.' then ':' else c))

/-- `parse_time`: `NaN` is `None`; native date-time and time-of-day
values keep hour/minute with seconds zeroed; strings are stripped, `.`
is normalized to `:`, then matched against the clock regex and fed to
the `time` constructor (which checks `hour < 24` and `minute < 60`). -/
def parse_time (val : Cell) : Except Err (Option TimeOfDay) :=
  match val with
  | .na => .ok none
  | .dt _ _ _ h m _ => .ok (some ⟨h, m, 0⟩)
  | .tod h m _ => .ok (some ⟨h, m, 0⟩)
  | .str raw =>
    match parseClock (replaceDot (strTrim raw)).data with
    | none => .error (.UnrecognizedTime raw)
    | some (hh, mm) =>
      if hh < 24 && mm < 60 then .ok (some ⟨hh, mm, 0⟩)
      else .error (.TimeFieldOutOfRange raw)

-- ==========================================================
-- Time grid helpers
-- ==========================================================

def to_minutes (t : TimeOfDay) : Nat := t.hour * 60 + t.minute

def floor_minutes (m step : Nat) : Nat := (m / step) * step

def ceil_minutes (m step : Nat) : Nat := ((m + step - 1) / step) * step

def minutes_to_time (m : Nat) : TimeOfDay := ⟨m / 60, m % 60, 0⟩

def iter_slots_go (step : Nat) : Nat → Nat → Nat → List Nat
  | 0, _, _ => []
  | fuel + 1, cur, stop =>
    if cur < stop then cur :: iter_slots_go step fuel (cur + step) stop else []

/-- `iter_slots(start_min, end_min, step)`: yield `start_min`,
`start_min + step`, ... while below `end_min`.  Fuel
`end_min - start_min` suffices for every `step ≥ 1`; the Python loop
does not terminate for `step = 0`. -/
def iter_slots (start_min end_min step : Nat) : List Nat :=
  iter_slots_go step (end_min - start_min) start_min end_min

theorem mem_iter_slots_go (step : Nat) (hstep : 0 < step) :
    ∀ (fuel cur stop s : Nat), stop ≤ cur + fuel * step →
      (s ∈ iter_slots_go step fuel cur stop ↔
        cur ≤ s ∧ s < stop ∧ (s - cur) % step = 0) := by
  intro fuel
  induction fuel with
  | zero =>
    intro cur stop s hfuel
    simp only [iter_slots_go, List.not_mem_nil, false_iff]
    omega
  | succ n ih =>
    intro cur stop s hfuel
    simp only [iter_slots_go]
    by_cases hc : cur < stop
    · rw [if_pos hc, List.mem_cons, ih (cur + step) stop s (by rw [Nat.succ_mul] at hfuel; omega)]
      constructor
      · rintro (rfl | ⟨h1, h2, h3⟩)
        · exact ⟨le_refl _, hc, by simp⟩
        · refine ⟨by omega, h2, ?_⟩
          have hdvd : step ∣ (s - (cur + step)) := Nat.dvd_of_mod_eq_zero h3
          have hdvd2 : step ∣ (s - cur) := by
            have heq : s - cur = (s - (cur + step)) + step := by omega
            rw [heq]; exact Nat.dvd_add hdvd dvd_rfl
          exact Nat.mod_eq_zero_of_dvd hdvd2
      · rintro ⟨h1, h2, h3⟩
        rcases Nat.eq_or_lt_of_le h1 with rfl | hlt
        · exact Or.inl rfl
        · right
          have hdvd : step ∣ (s - cur) := Nat.dvd_of_mod_eq_zero h3
          have hge : step ≤ s - cur := Nat.le_of_dvd (by omega) hdvd
          refine ⟨by omega, h2, ?_⟩
          have hdvd2 : step ∣ (s - (cur + step)) := by
            have heq : s - (cur + step) = (s - cur) - step := by omega
            rw [heq]; exact Nat.dvd_sub' hdvd dvd_rfl
          exact Nat.mod_eq_zero_of_dvd hdvd2
    · rw [if_neg hc]
      simp only [List.not_mem_nil, false_iff]
      omega

theorem mem_iter_slots (start_min end_min step s : Nat) (hstep : 0 < step) :
    s ∈ iter_slots start_min end_min step ↔
      start_min ≤ s ∧ s < end_min ∧ (s - start_min) % step = 0 := by
  apply mem_iter_slots_go step hstep
  have h := Nat.le_mul_of_pos_right (end_min - start_min) hstep
  omega

/-- The slots a record occupies in the occupancy-building loop:
`iter_slots(floor_minutes(start), ceil_minutes(end), step)`. -/
def recordSlots (t1 t2 : TimeOfDay) (step : Nat) : List Nat :=
  iter_slots (floor_minutes (to_minutes t1) step) (ceil_minutes (to_minutes t2) step) step

/-- Claim C3: a record's occupied slot set is exactly the slots in
`[floor(start, step), ceil(end, step))` stepping by `step`; in
particular `start = 08:00`, `end = 08:50`, `step = 15` occupies exactly
`{08:00, 08:15, 08:30, 08:45}` (i.e. minutes 480, 495, 510, 525). -/
theorem c3_record_slots (t1 t2 : TimeOfDay) (step s : Nat) (hstep : 0 < step) :
    (s ∈ recordSlots t1 t2 step ↔
      floor_minutes (to_minutes t1) step ≤ s ∧
        s < ceil_minutes (to_minutes t2) step ∧
        (s - floor_minutes (to_minutes t1) step) % step = 0)
    ∧ recordSlots ⟨8, 0, 0⟩ ⟨8, 50, 0⟩ 15 = [480, 495, 510, 525] :=
  ⟨mem_iter_slots _ _ _ _ hstep, by decide⟩

/-- Witness for C3 at `step = 15`, `s = 495`. -/
theorem c3_witness :
    ((495 ∈ recordSlots ⟨8, 0, 0⟩ ⟨8, 50, 0⟩ 15 ↔
      floor_minutes (to_minutes ⟨8, 0, 0⟩) 15 ≤ 495 ∧
        495 < ceil_minutes (to_minutes ⟨8, 50, 0⟩) 15 ∧
        (495 - floor_minutes (to_minutes ⟨8, 0, 0⟩) 15) % 15 = 0)
    ∧ recordSlots ⟨8, 0, 0⟩ ⟨8, 50, 0⟩ 15 = [480, 495, 510, 525]) :=
  c3_record_slots ⟨8, 0, 0⟩ ⟨8, 50, 0⟩ 15 495 (by decide)

/-- Claim C6: `parse_time("8.30")` and `parse_time("08:30")` both give
`TimeOfDay(8, 30)` (`.` normalized to `:`); a missing/null input gives
`none`; and every successfully parsed result has `second = 0`. -/
theorem c6_parse_time :
    (parse_time (.str "8.30") = .ok (some ⟨8, 30, 0⟩)
      ∧ parse_time (.str "08:30") = .ok (some ⟨8, 30, 0⟩))
    ∧ parse_time .na = .ok none
    ∧ (∀ (v : Cell) (t : TimeOfDay), parse_time v = .ok (some t) → t.second = 0) := by
  refine ⟨⟨by decide, by decide⟩, rfl, ?_⟩
  intro v t h
  cases v with
  | na => simp [parse_time] at h
  | dt y mo d hh mm ss =>
    simp only [parse_time, Except.ok.injEq, Option.some.injEq] at h
    rw [← h]
  | tod hh mm ss =>
    simp only [parse_time, Except.ok.injEq, Option.some.injEq] at h
    rw [← h]
  | str raw =>
    simp only [parse_time] at h
    split at h
    · exact Except.noConfusion h
    · split at h
      · simp only [Except.ok.injEq, Option.some.injEq] at h
        rw [← h]
      · exact Except.noConfusion h

/-- Witness for C6's seconds clause at the input `"08:30:45"`. -/
theorem c6_witness : (⟨8, 30, 0⟩ : TimeOfDay).second = 0 :=
  c6_parse_time.2.2 (.str "08:30:45") ⟨8, 30, 0⟩ (by decide)

/-- Claim C7: every string whose letters-only lowercase form equals a
declared alias (so the alias in any letter case, with any non-letter
characters interspersed) maps to that alias's canonical weekday, and
`normalize_day` succeeds if and only if the canonical form is an alias
or (when it has at least 3 characters) its first 3 characters are. -/
theorem c7_normalize_day :
    (∀ p, p ∈ DAY_ALIASES → ∀ v : String, canonDay v = p.1 →
      normalize_day v = .ok p.2)
    ∧ (∀ v : String, (∃ d, normalize_day v = .ok d) ↔
        ((DAY_ALIASES.lookup (canonDay v)).isSome = true
          ∨ (3 ≤ (canonDay v).length
              ∧ (DAY_ALIASES.lookup (String.mk ((canonDay v).data.take 3))).isSome = true))) := by
  constructor
  · intro p hp
    simp only [DAY_ALIASES, List.mem_cons, List.not_mem_nil, or_false] at hp
    rcases hp with rfl|rfl|rfl|rfl|rfl|rfl|rfl|rfl|rfl|rfl|rfl|rfl|rfl|rfl|rfl|rfl|rfl|rfl <;>
      (intro v h; simp only [normalize_day, h]; rfl)
  · intro v
    simp only [normalize_day]
    cases h1 : DAY_ALIASES.lookup (canonDay v) with
    | some d => simp [h1]
    | none =>
      simp only [h1, Option.isSome_none, Bool.false_eq_true, false_or]
      by_cases h2 : 3 ≤ (canonDay v).length
      · rw [if_pos h2]
        cases h3 : DAY_ALIASES.lookup (String.mk ((canonDay v).data.take 3)) with
        | some d => simp [h3, h2]
        | none => simp [h3, h2]
      · rw [if_neg h2]
        simp [h2]

/-- Witness for C7 at the cased, punctuated alias `"TUES."`. -/
theorem c7_witness : normalize_day "TUES." = .ok "Tuesday" :=
  c7_normalize_day.1 ("tues", "Tuesday") (by decide) "TUES." (by decide)

-- ==========================================================
-- Color assigner: hashlib.md5 and student_color_hex
-- ==========================================================

def M32 : Nat := 4294967296

def add32 (a b : Nat) : Nat := (a + b) % M32

def not32 (a : Nat) : Nat := 4294967295 - a % M32

def rotl32 (x n : Nat) : Nat :=
  (((x % M32) * 2 ^ n) % M32 + (x % M32) / 2 ^ (32 - n)) % M32

def md5F (b c d : Nat) : Nat := (b &&& c) ||| (not32 b &&& d)
def md5G (b c d : Nat) : Nat := (b &&& d) ||| (c &&& not32 d)
def md5H (b c d : Nat) : Nat := b ^^^ c ^^^ d
def md5I (b c d : Nat) : Nat := c ^^^ (b ||| not32 d)

/-- The 64 MD5 sine constants `floor(2^32 * |sin(i+1)|)`. -/
def md5K : List Nat := [
  3614090360, 3905402710, 606105819, 3250441966, 4118548399, 1200080426,
  2821735955, 4249261313, 1770035416, 2336552879, 4294925233, 2304563134,
  1804603682, 4254626195, 2792965006, 1236535329, 4129170786, 3225465664,
  643717713, 3921069994, 3593408605, 38016083, 3634488961, 3889429448,
  568446438, 3275163606, 4107603335, 1163531501, 2850285829, 4243563512,
  1735328473, 2368359562, 4294588738, 2272392833, 1839030562, 4259657740,
  2763975236, 1272893353, 4139469664, 3200236656, 681279174, 3936430074,
  3572445317, 76029189, 3654602809, 3873151461, 530742520, 3299628645,
  4096336452, 1126891415, 2878612391, 4237533241, 1700485571, 2399980690,
  4293915773, 2240044497, 1873313359, 4264355552, 2734768916, 1309151649,
  4149444226, 3174756917, 718787259, 3951481745]

/-- The per-round left-rotation amounts. -/
def md5S : List Nat := [
  7, 12, 17, 22, 7, 12, 17, 22, 7, 12, 17, 22, 7, 12, 17, 22,
  5, 9, 14, 20, 5, 9, 14, 20, 5, 9, 14, 20, 5, 9, 14, 20,
  4, 11, 16, 23, 4, 11, 16, 23, 4, 11, 16, 23, 4, 11, 16, 23,
  6, 10, 15, 21, 6, 10, 15, 21, 6, 10, 15, 21, 6, 10, 15, 21]

/-- One MD5 round on state `(a, b, c, d)` with message words `m`. -/
def md5Round (m : List Nat) (st : Nat × Nat × Nat × Nat) (i : Nat) :
    Nat × Nat × Nat × Nat :=
  let (a, b, c, d) := st
  let f :=
    if i < 16 then md5F b c d
    else if i < 32 then md5G b c d
    else if i < 48 then md5H b c d
    else md5I b c d
  let g :=
    if i < 16 then i
    else if i < 32 then (5 * i + 1) % 16
    else if i < 48 then (3 * i + 5) % 16
    else (7 * i) % 16
  let f2 := (f + a + md5K.getD i 0 + m.getD g 0) % M32
  (d, add32 b (rotl32 f2 (md5S.getD i 0)), b, c)

/-- Process one 512-bit block and add the result into the state. -/
def md5ProcessBlock (st : Nat × Nat × Nat × Nat) (m : List Nat) :
    Nat × Nat × Nat × Nat :=
  let r := (List.range 64).foldl (md5Round m) st
  (add32 st.1 r.1, add32 st.2.1 r.2.1, add32 st.2.2.1 r.2.2.1, add32 st.2.2.2 r.2.2.2)

/-- UTF-8 encoding of one character (Python `str.encode("utf-8")`). -/
def utf8EncodeChar (c : Char) : List Nat :=
  let n := c.toNat
  if n < 128 then [n]
  else if n < 2048 then [192 + n / 64, 128 + n % 64]
  else if n < 65536 then [224 + n / 4096, 128 + n / 64 % 64, 128 + n % 64]
  else [240 + n / 262144, 128 + n / 4096 % 64, 128 + n / 64 % 64, 128 + n % 64]

def utf8Encode (s : String) : List Nat := s.data.flatMap utf8EncodeChar

/-- 64-bit little-endian length field. -/
def le8 (n : Nat) : List Nat := (List.range 8).map (fun i => n / 256 ^ i % 256)

/-- MD5 padding: `0x80`, zeros to 56 mod 64, then the bit length. -/
def md5Pad (msg : List Nat) : List Nat :=
  msg ++ [128] ++ List.replicate ((119 - msg.length % 64) % 64) 0 ++
    le8 (msg.length * 8 % 2 ^ 64)

/-- Split the padded message into 16 little-endian 32-bit words per block. -/
def md5Words (block : List Nat) : List Nat :=
  (List.range 16).map (fun j =>
    block.getD (4 * j) 0 + 256 * block.getD (4 * j + 1) 0 +
      65536 * block.getD (4 * j + 2) 0 + 16777216 * block.getD (4 * j + 3) 0)

/-- The final MD5 state over all blocks of the padded message. -/
def md5Final (msg : List Nat) : Nat × Nat × Nat × Nat :=
  let padded := md5Pad msg
  let blocks := (List.range (padded.length / 64)).map
    (fun i => (padded.drop (64 * i)).take 64)
  blocks.foldl (fun st blk => md5ProcessBlock st (md5Words blk))
    (1732584193, 4023233417, 2562383102, 271733878)

def wordBytes (w : Nat) : List Nat :=
  [w % 256, w / 256 % 256, w / 65536 % 256, w / 16777216 % 256]

/-- MD5 digest of a byte string, as its 16 bytes. -/
def md5Digest (msg : List Nat) : List Nat :=
  wordBytes (md5Final msg).1 ++ wordBytes (md5Final msg).2.1 ++
    wordBytes (md5Final msg).2.2.1 ++ wordBytes (md5Final msg).2.2.2

def hexCharLower (n : Nat) : Char :=
  if n < 10 then Char.ofNat (48 + n) else Char.ofNat (87 + n)

/-- `hashlib.md5(sid.encode("utf-8")).hexdigest()`: 32 lowercase hex digits. -/
def md5_hexdigest (s : String) : String :=
  String.mk ((md5Digest (utf8Encode s)).flatMap
    (fun b => [hexCharLower (b / 16), hexCharLower (b % 16)]))

set_option maxRecDepth 100000 in
theorem md5_vector_empty :
    md5_hexdigest "" = "d41d8cd98f00b204e9800998ecf8427e" := by decide

set_option maxRecDepth 100000 in
theorem md5_vector_abc :
    md5_hexdigest "abc" = "900150983cd24fb0d6963f7d28e17f72" := by decide

/-- `int(c, 16)` on one hex digit. -/
def hexVal (c : Char) : Nat :=
  if c.isDigit then c.toNat - 48
  else if 'a' ≤ c then c.toNat - 87
  else c.toNat - 55

/-- `int(h[i:i+2], 16)`. -/
def hexPairVal (h : String) (i : Nat) : Nat :=
  16 * hexVal (h.data.getD i '0') + hexVal (h.data.getD (i + 1) '0')

def hexCharUpper (n : Nat) : Char :=
  if n < 10 then Char.ofNat (48 + n) else Char.ofNat (55 + n)

/-- `f"{n:02X}"` for `n < 256`. -/
def toHex2U (n : Nat) : String := String.mk [hexCharUpper (n / 16), hexCharUpper (n % 16)]

/-- `student_color_hex`: md5 the identifier, read the first three
hex-digit pairs of the digest as `(r, g, b)`, pastelize each channel via
`(channel + 255) / 2` (truncating division) and format as `RRGGBB` in
uppercase hex. -/
def student_color_hex (student_id : String) : String :=
  let h := md5_hexdigest student_id
  let r := hexPairVal h 0
  let g := hexPairVal h 2
  let b := hexPairVal h 4
  toHex2U ((r + 255) / 2) ++ toHex2U ((g + 255) / 2) ++ toHex2U ((b + 255) / 2)

theorem hexVal_hexCharLower : ∀ k : Nat, k < 16 → hexVal (hexCharLower k) = k := by decide

theorem wordBytes_all_lt (w : Nat) : ∀ x ∈ wordBytes w, x < 256 := by
  intro x hx
  simp only [wordBytes, List.mem_cons, List.not_mem_nil, or_false] at hx
  rcases hx with rfl | rfl | rfl | rfl <;> omega

theorem md5Digest_all_lt (msg : List Nat) : ∀ x ∈ md5Digest msg, x < 256 := by
  intro x hx
  simp only [md5Digest, List.mem_append] at hx
  rcases hx with ((h | h) | h) | h <;> exact wordBytes_all_lt _ x h

theorem getD_lt_of_all_lt (l : List Nat) (n d : Nat) (hd : d < 256)
    (h : ∀ x ∈ l, x < 256) : l.getD n d < 256 := by
  induction l generalizing n with
  | nil => exact hd
  | cons x xs ih =>
    cases n with
    | zero => exact h x (by simp)
    | succ m => exact ih m (fun y hy => h y (by simp [hy]))

/-- Reading hex-digit pair `i` of a hex rendering recovers byte `i`
(out-of-range indices give `'0'` on both sides). -/
theorem getD_hexPairs (bs : List Nat) (i : Nat) :
    ((bs.flatMap (fun b => [hexCharLower (b / 16), hexCharLower (b % 16)])).getD (2 * i) '0'
        = hexCharLower (bs.getD i 0 / 16))
    ∧ ((bs.flatMap (fun b => [hexCharLower (b / 16), hexCharLower (b % 16)])).getD (2 * i + 1) '0'
        = hexCharLower (bs.getD i 0 % 16)) := by
  induction bs generalizing i with
  | nil =>
    refine ⟨?_, ?_⟩ <;> (simp only [List.flatMap_nil, List.getD_nil]; decide)
  | cons b rest ih =>
    cases i with
    | zero => exact ⟨rfl, rfl⟩
    | succ j =>
      have h2 : 2 * (j + 1) = 2 * j + 1 + 1 := by omega
      have h3 : 2 * (j + 1) + 1 = 2 * j + 1 + 1 + 1 := by omega
      rw [List.flatMap_cons]
      constructor
      · rw [h2]
        simp only [List.cons_append, List.getD_cons_succ]
        exact (ih j).1
      · rw [h3]
        simp only [List.cons_append, List.getD_cons_succ]
        exact (ih j).2

theorem hexPairVal_hexdigest (s : String) (i : Nat) :
    hexPairVal (md5_hexdigest s) (2 * i) = (md5Digest (utf8Encode s)).getD i 0 := by
  have hdata : (md5_hexdigest s).data =
      (md5Digest (utf8Encode s)).flatMap
        (fun b => [hexCharLower (b / 16), hexCharLower (b % 16)]) := rfl
  have hb : (md5Digest (utf8Encode s)).getD i 0 < 256 :=
    getD_lt_of_all_lt _ _ _ (by omega) (md5Digest_all_lt _)
  have hp := getD_hexPairs (md5Digest (utf8Encode s)) i
  rw [hexPairVal, hdata, hp.1, hp.2,
    hexVal_hexCharLower _ (by omega), hexVal_hexCharLower _ (by omega)]
  omega

/-- A character of an uppercase hexadecimal rendering. -/
abbrev isUpperHexDigit (c : Char) : Prop := c.isDigit = true ∨ ('A' ≤ c ∧ c ≤ 'F')

theorem hexCharUpper_hex : ∀ k : Nat, k < 16 → isUpperHexDigit (hexCharUpper k) := by decide

theorem mem_toHex2U (n : Nat) (hn : n ≤ 255) (c : Char)
    (hc : c ∈ (toHex2U n).data) : isUpperHexDigit c := by
  simp only [toHex2U, List.mem_cons, List.not_mem_nil, or_false] at hc
  rcases hc with rfl | rfl
  · exact hexCharUpper_hex _ (by omega)
  · exact hexCharUpper_hex _ (by omega)

/-- Claim C10 (implicit): for every student identifier, the digest bytes
`(r, g, b)` satisfy `channel < 256`, each pastelized channel
`(channel + 255) / 2` lies in `[127, 255]`, and the output is exactly
six uppercase hexadecimal digits. -/
theorem c10_pastel_color (sid : String) :
    ∃ r g b : Nat,
      r < 256 ∧ g < 256 ∧ b < 256 ∧
      student_color_hex sid =
        toHex2U ((r + 255) / 2) ++ toHex2U ((g + 255) / 2) ++ toHex2U ((b + 255) / 2) ∧
      127 ≤ (r + 255) / 2 ∧ (r + 255) / 2 ≤ 255 ∧
      127 ≤ (g + 255) / 2 ∧ (g + 255) / 2 ≤ 255 ∧
      127 ≤ (b + 255) / 2 ∧ (b + 255) / 2 ≤ 255 ∧
      (student_color_hex sid).length = 6 ∧
      ∀ c ∈ (student_color_hex sid).data, isUpperHexDigit c := by
  have h0 := hexPairVal_hexdigest sid 0
  have h1 := hexPairVal_hexdigest sid 1
  have h2 := hexPairVal_hexdigest sid 2
  norm_num at h0 h1 h2
  have hb0 : (md5Digest (utf8Encode sid)).getD 0 0 < 256 :=
    getD_lt_of_all_lt _ _ _ (by omega) (md5Digest_all_lt _)
  have hb1 : (md5Digest (utf8Encode sid)).getD 1 0 < 256 :=
    getD_lt_of_all_lt _ _ _ (by omega) (md5Digest_all_lt _)
  have hb2 : (md5Digest (utf8Encode sid)).getD 2 0 < 256 :=
    getD_lt_of_all_lt _ _ _ (by omega) (md5Digest_all_lt _)
  have hr : hexPairVal (md5_hexdigest sid) 0 < 256 := by rw [h0]; exact hb0
  have hg : hexPairVal (md5_hexdigest sid) 2 < 256 := by rw [h1]; exact hb1
  have hb : hexPairVal (md5_hexdigest sid) 4 < 256 := by rw [h2]; exact hb2
  refine ⟨hexPairVal (md5_hexdigest sid) 0, hexPairVal (md5_hexdigest sid) 2,
    hexPairVal (md5_hexdigest sid) 4, hr, hg, hb, rfl,
    by omega, by omega, by omega, by omega, by omega, by omega, rfl, ?_⟩
  intro c hc
  have hc' : c ∈ (toHex2U ((hexPairVal (md5_hexdigest sid) 0 + 255) / 2)).data ++
      ((toHex2U ((hexPairVal (md5_hexdigest sid) 2 + 255) / 2)).data ++
        (toHex2U ((hexPairVal (md5_hexdigest sid) 4 + 255) / 2)).data) := hc
  rcases List.mem_append.mp hc' with h | h'
  · exact mem_toHex2U _ (by omega) c h
  · rcases List.mem_append.mp h' with h | h
    · exact mem_toHex2U _ (by omega) c h
    · exact mem_toHex2U _ (by omega) c h

-- ==========================================================
-- Table standardizer
-- ==========================================================

/-- A raw sheet: stringified column labels (pandas renders default
integer headers as `"0"`, `"1"`, ...) and rows of cells. -/
structure Table where
  headers : List String
  rows : List (List Cell)
deriving DecidableEq, Repr

/-- A row every cell of which is missing. -/
def isNaRow (r : List Cell) : Bool := r.all (· == Cell.na)

/-- `clean_df`: drop rows that are entirely empty, then columns that are
entirely empty (pandas `dropna(how="all")` on each axis; a column whose
non-null count is zero — including when no rows remain — is dropped),
then strip the column labels. -/
def clean_df (t : Table) : Table :=
  let rows1 := t.rows.filter (fun r => !(isNaRow r))
  let keep := (List.range t.headers.length).filter
    (fun j => rows1.any (fun r => !(r.getD j Cell.na == Cell.na)))
  { headers := keep.map (fun j => strTrim (t.headers.getD j "")),
    rows := rows1.map (fun r => keep.map (fun j => r.getD j Cell.na)) }

def COURSE_CANDS : List String := ["course", "course name", "subject"]
def DAY_CANDS : List String := ["day", "day of the week", "weekday"]
def START_CANDS : List String := ["start", "start time", "time from", "from", "time start"]
def END_CANDS : List String := ["end", "end time", "time to", "to", "time end"]

/-- The `cols` dict lookup: the column whose stripped, lowered label is
`key`; with duplicate lowered labels the last column wins (Python dict
comprehension).  Columns are identified by index. -/
def lastIdxOf (key : String) (hs : List String) : Option Nat :=
  ((List.range hs.length).filter
    (fun j => strLower (strTrim (hs.getD j "")) == key)).getLast?

/-- `pick(*cands)`: the first candidate name present among the labels. -/
def pickRole (hs : List String) : List String → Option Nat
  | [] => none
  | c :: cs =>
    match lastIdxOf c hs with
    | some i => some i
    | none => pickRole hs cs

/-- Outcome of column selection: all four roles header-matched, or the
positional first-four-columns fallback. -/
inductive ColSel
  | byHeader (course day start stop : Nat)
  | positional
deriving DecidableEq, Repr

/-- Header matching: if all four roles match a column, select those
columns; otherwise fall back positionally. -/
def selectCols (hs : List String) : ColSel :=
  match pickRole hs COURSE_CANDS, pickRole hs DAY_CANDS,
      pickRole hs START_CANDS, pickRole hs END_CANDS with
  | some i, some j, some k, some l => .byHeader i j k l
  | _, _, _, _ => .positional

/-- One standardized row: the cells of the columns labelled
course, day, start, end (the end-time field is `stop` here because
`end` is reserved). -/
structure Row4 where
  course : Cell
  day : Cell
  start : Cell
  stop : Cell
deriving DecidableEq, Repr

/-- `standardize_df` (the second, shadowing definition in the source):
clean, require at least 4 remaining columns, then header-match or fall
back to the first four columns, yielding the 4-column table. -/
def standardize_df (t : Table) : Except Err (List Row4) :=
  let df := clean_df t
  if df.headers.length < 4 then .error .InsufficientColumns
  else
    match selectCols df.headers with
    | .byHeader i j k l =>
      .ok (df.rows.map (fun r => ⟨r.getD i .na, r.getD j .na, r.getD k .na, r.getD l .na⟩))
    | .positional =>
      .ok (df.rows.map (fun r => ⟨r.getD 0 .na, r.getD 1 .na, r.getD 2 .na, r.getD 3 .na⟩))

theorem lastIdxOf_label (key : String) (hs : List String) (i : Nat)
    (h : lastIdxOf key hs = some i) :
    strLower (strTrim (hs.getD i "")) = key ∧ i < hs.length := by
  have hmem : i ∈ (List.range hs.length).filter
      (fun j => strLower (strTrim (hs.getD j "")) == key) := by
    obtain ⟨hne, heq⟩ := List.mem_getLast?_eq_getLast (Option.mem_def.mpr h)
    rw [heq]
    exact List.getLast_mem hne
  obtain ⟨hrange, hpred⟩ := List.mem_filter.mp hmem
  exact ⟨by simpa using hpred, List.mem_range.mp hrange⟩

theorem pickRole_label (hs cands : List String) (i : Nat)
    (h : pickRole hs cands = some i) :
    ∃ c ∈ cands, strLower (strTrim (hs.getD i "")) = c ∧ i < hs.length := by
  induction cands with
  | nil => simp [pickRole] at h
  | cons c cs ih =>
    simp only [pickRole] at h
    cases hl : lastIdxOf c hs with
    | some j =>
      rw [hl] at h
      injection h with hji
      subst hji
      obtain ⟨hlab, hlen⟩ := lastIdxOf_label c hs _ hl
      exact ⟨c, by simp, hlab, hlen⟩
    | none =>
      rw [hl] at h
      obtain ⟨c', hc', hlab, hlen⟩ := ih h
      exact ⟨c', by simp [hc'], hlab, hlen⟩

/-- Roles matched by disjoint candidate name lists land in distinct columns. -/
theorem pickRole_ne (hs cs1 cs2 : List String) (i j : Nat)
    (hint : cs1.inter cs2 = [])
    (h1 : pickRole hs cs1 = some i) (h2 : pickRole hs cs2 = some j) : i ≠ j := by
  obtain ⟨c1, hc1, hl1, _⟩ := pickRole_label hs cs1 i h1
  obtain ⟨c2, hc2, hl2, _⟩ := pickRole_label hs cs2 j h2
  intro hij
  subst hij
  rw [hl1] at hl2
  subst hl2
  have hmem : c1 ∈ cs1.inter cs2 := List.mem_inter_iff.mpr ⟨hc1, hc2⟩
  rw [hint] at hmem
  exact List.not_mem_nil _ hmem

/-- Claim C5: the Standardizer selects columns by header matching
whenever all 4 roles match (necessarily distinct) columns — e.g. for the
header row `["Subject", "Weekday", "From", "To"]` — and otherwise
(e.g. a headerless 4-column sheet, whose pandas labels are
`"0" ... "3"`) falls back to the first 4 columns positionally in role
order (course, day, start, end). -/
theorem c5_standardizer :
    selectCols ["Subject", "Weekday", "From", "To"] = .byHeader 0 1 2 3
    ∧ selectCols ["0", "1", "2", "3"] = .positional
    ∧ (∀ hs : List String,
        (selectCols hs ≠ .positional ↔
          ((pickRole hs COURSE_CANDS).isSome = true
            ∧ (pickRole hs DAY_CANDS).isSome = true
            ∧ (pickRole hs START_CANDS).isSome = true
            ∧ (pickRole hs END_CANDS).isSome = true)))
    ∧ (∀ (hs : List String) (i j k l : Nat), selectCols hs = .byHeader i j k l →
        i ≠ j ∧ i ≠ k ∧ i ≠ l ∧ j ≠ k ∧ j ≠ l ∧ k ≠ l)
    ∧ standardize_df ⟨["Extra", "Subject", "Weekday", "From", "To"],
        [[.str "x", .str "Math", .str "Mon", .str "09:00", .str "10:00"]]⟩ =
      .ok [⟨.str "Math", .str "Mon", .str "09:00", .str "10:00"⟩]
    ∧ standardize_df ⟨["0", "1", "2", "3"],
        [[.str "Math", .str "Mon", .str "09:00", .str "10:00"]]⟩ =
      .ok [⟨.str "Math", .str "Mon", .str "09:00", .str "10:00"⟩] := by
  refine ⟨by decide, by decide, ?_, ?_, by decide, by decide⟩
  · intro hs
    cases hC : pickRole hs COURSE_CANDS <;> cases hD : pickRole hs DAY_CANDS <;>
      cases hS : pickRole hs START_CANDS <;> cases hE : pickRole hs END_CANDS <;>
      simp [selectCols, hC, hD, hS, hE]
  · intro hs i j k l hsel
    cases hC : pickRole hs COURSE_CANDS <;> cases hD : pickRole hs DAY_CANDS <;>
      cases hS : pickRole hs START_CANDS <;> cases hE : pickRole hs END_CANDS <;>
      simp only [selectCols, hC, hD, hS, hE] at hsel
    all_goals cases hsel
    exact ⟨pickRole_ne hs _ _ _ _ (by decide) hC hD,
      pickRole_ne hs _ _ _ _ (by decide) hC hS,
      pickRole_ne hs _ _ _ _ (by decide) hC hE,
      pickRole_ne hs _ _ _ _ (by decide) hD hS,
      pickRole_ne hs _ _ _ _ (by decide) hD hE,
      pickRole_ne hs _ _ _ _ (by decide) hS hE⟩

/-- Witness for C5's distinctness clause at the header example. -/
theorem c5_witness :
    (0 : Nat) ≠ 1 ∧ (0 : Nat) ≠ 2 ∧ (0 : Nat) ≠ 3
      ∧ (1 : Nat) ≠ 2 ∧ (1 : Nat) ≠ 3 ∧ (2 : Nat) ≠ 3 :=
  c5_standardizer.2.2.2.1 ["Subject", "Weekday", "From", "To"] 0 1 2 3 (by decide)

-- ==========================================================
-- Record loader
-- ==========================================================

/-- A loaded schedule record (one surviving row, tagged with the
student identifier; the end time is the `stop` field). -/
structure ScheduleRecord where
  student : String
  course : String
  day : String
  start : TimeOfDay
  stop : TimeOfDay
deriving DecidableEq, Repr

/-- Fail-fast element-wise application: pandas `.apply` raises on the
first bad element of the column. -/
def mapExcept (f : α → Except Err β) : List α → Except Err (List β)
  | [] => .ok []
  | x :: xs =>
    match f x with
    | .error e => .error e
    | .ok y =>
      match mapExcept f xs with
      | .error e => .error e
      | .ok ys => .ok (y :: ys)

/-- `os.path.splitext(os.path.basename(path))[0]` on a bare file name:
cut at the last dot, unless every character before that dot is a dot. -/
def splitextStem (name : String) : String :=
  let cs := name.data
  match ((List.range cs.length).filter (fun j => cs.getD j ' ' == '.')).getLast? with
  | none => name
  | some j =>
    if (cs.take j).all (· == '.') then name
    else String.mk (cs.take j)

/-- The per-file loader body: standardize, `dropna(how="all")` again,
stringify-and-strip the course column, apply `normalize_day` and
`parse_time` column-wise (any unparseable cell raises and aborts), then
drop rows whose start or end parsed to `None` and rows whose course is
empty, tagging the rest with the student identifier. -/
def loadFile (student_id : String) (t : Table) : Except Err (List ScheduleRecord) :=
  match standardize_df t with
  | .error e => .error e
  | .ok rows0 =>
    let rows := rows0.filter (fun r => !(isNaRow [r.course, r.day, r.start, r.stop]))
    let courses := rows.map (fun r => strTrim (cellStr r.course))
    match mapExcept (fun r => normalize_day (cellStr r.day)) rows with
    | .error e => .error e
    | .ok days =>
      match mapExcept (fun r => parse_time r.start) rows with
      | .error e => .error e
      | .ok starts =>
        match mapExcept (fun r => parse_time r.stop) rows with
        | .error e => .error e
        | .ok stops =>
          let quads := courses.zip (days.zip (starts.zip stops))
          let kept := quads.filterMap (fun q =>
            match q.2.2.1, q.2.2.2 with
            | some s, some e => some (q.1, q.2.1, s, e)
            | _, _ => none)
          .ok ((kept.filter (fun q => 0 < q.1.length)).map
            (fun q => ⟨student_id, q.1, q.2.1, q.2.2.1, q.2.2.2⟩))

/-- `Except.ok`-ness as a decidable Boolean. -/
def isOkE (x : Except Err α) : Bool :=
  match x with
  | .ok _ => true
  | .error _ => false

theorem mapExcept_error_of_mem (f : α → Except Err β) (l : List α) (x : α)
    (hx : x ∈ l) (hf : isOkE (f x) = false) : ∃ e, mapExcept f l = .error e := by
  induction l with
  | nil => cases hx
  | cons y ys ih =>
    rcases List.mem_cons.mp hx with rfl | hx'
    · cases hfx : f x with
      | error e => exact ⟨e, by simp [mapExcept, hfx]⟩
      | ok b => rw [hfx] at hf; exact absurd hf (by simp [isOkE])
    · cases hfy : f y with
      | error e => exact ⟨e, by simp [mapExcept, hfy]⟩
      | ok b =>
        obtain ⟨e, he⟩ := ih hx'
        exact ⟨e, by simp [mapExcept, hfy, he]⟩

/-- The loader's mixed-row test table: one row with an unrecognizable
day token, one fully valid row. -/
def tblBadDay : Table :=
  ⟨["course", "day", "start", "end"],
    [[.str "Math", .str "Funday", .str "09:00", .str "10:00"],
     [.str "Phys", .str "Mon", .str "09:00", .str "10:00"]]⟩

/-- A table with one row whose start cell is missing and one valid row. -/
def tblNullStart : Table :=
  ⟨["course", "day", "start", "end"],
    [[.str "Math", .str "Mon", .na, .str "10:00"],
     [.str "Phys", .str "Mon", .str "09:00", .str "10:00"]]⟩

/-- A table with one row whose end cell is missing and one valid row. -/
def tblNullEnd : Table :=
  ⟨["course", "day", "start", "end"],
    [[.str "Math", .str "Mon", .str "09:00", .na],
     [.str "Phys", .str "Mon", .str "09:00", .str "10:00"]]⟩

/-- A table with one row whose course is blank after trimming and one
valid row. -/
def tblEmptyCourse : Table :=
  ⟨["course", "day", "start", "end"],
    [[.str "  ", .str "Mon", .str "09:00", .str "10:00"],
     [.str "Phys", .str "Mon", .str "09:00", .str "10:00"]]⟩

/-- A table with one row whose start token does not match the clock
regex and one valid row. -/
def tblBadTime : Table :=
  ⟨["course", "day", "start", "end"],
    [[.str "Math", .str "Mon", .str "nine", .str "10:00"],
     [.str "Phys", .str "Mon", .str "09:00", .str "10:00"]]⟩

/-- Counterexample to C1 as stated: a file holding one row with the
unrecognizable day token `"Funday"` and one fully valid row does not
drop the bad row and keep the good one — the `UnrecognizedDay` error
escapes the row and file level and aborts the whole run, so the valid
row of the same file is never loaded. -/
theorem c1_counterexample :
    loadFile "alice" tblBadDay = .error (.UnrecognizedDay "Funday") := by decide

set_option maxHeartbeats 4000000 in
set_option maxRecDepth 100000 in
/-- Claim C1 amended: a row whose start or end cell is missing, or
whose course is empty after trimming, is silently dropped while the
remaining rows of the file still load; but a day token that fails to
normalize or a time token that fails to parse is not caught at row
level: `UnrecognizedDay` / `UnrecognizedTime` propagates out of the
column-wise apply and aborts the load (and hence the run), for any file
containing such a row among its non-empty rows. -/
theorem c1_row_errors :
    loadFile "alice" tblNullStart =
      .ok [⟨"alice", "Phys", "Monday", ⟨9, 0, 0⟩, ⟨10, 0, 0⟩⟩]
    ∧ loadFile "alice" tblNullEnd =
      .ok [⟨"alice", "Phys", "Monday", ⟨9, 0, 0⟩, ⟨10, 0, 0⟩⟩]
    ∧ loadFile "alice" tblEmptyCourse =
      .ok [⟨"alice", "Phys", "Monday", ⟨9, 0, 0⟩, ⟨10, 0, 0⟩⟩]
    ∧ loadFile "alice" tblBadTime = .error (.UnrecognizedTime "nine")
    ∧ (∀ (sid : String) (t : Table) (rows0 : List Row4) (r : Row4),
        standardize_df t = .ok rows0 →
        r ∈ rows0.filter (fun r => !(isNaRow [r.course, r.day, r.start, r.stop])) →
        isOkE (normalize_day (cellStr r.day)) = false →
        ∃ e, loadFile sid t = .error e)
    ∧ (∀ (sid : String) (t : Table) (rows0 : List Row4) (r : Row4),
        standardize_df t = .ok rows0 →
        r ∈ rows0.filter (fun r => !(isNaRow [r.course, r.day, r.start, r.stop])) →
        isOkE (parse_time r.start) = false →
        ∃ e, loadFile sid t = .error e)
    ∧ (∀ (sid : String) (t : Table) (rows0 : List Row4) (r : Row4),
        standardize_df t = .ok rows0 →
        r ∈ rows0.filter (fun r => !(isNaRow [r.course, r.day, r.start, r.stop])) →
        isOkE (parse_time r.stop) = false →
        ∃ e, loadFile sid t = .error e) := by
  refine ⟨by decide, by decide, by decide, by decide, ?_, ?_, ?_⟩
  · intro sid t rows0 r hstd hr hbad
    obtain ⟨e, he⟩ := mapExcept_error_of_mem
      (fun r => normalize_day (cellStr r.day))
      (rows0.filter (fun r => !(isNaRow [r.course, r.day, r.start, r.stop]))) r hr hbad
    refine ⟨e, ?_⟩
    simp only [loadFile, hstd, he]
  · intro sid t rows0 r hstd hr hbad
    cases hdays : mapExcept (fun r => normalize_day (cellStr r.day))
        (rows0.filter (fun r => !(isNaRow [r.course, r.day, r.start, r.stop]))) with
    | error e => exact ⟨e, by simp only [loadFile, hstd, hdays]⟩
    | ok days =>
      obtain ⟨e, he⟩ := mapExcept_error_of_mem (fun r => parse_time r.start)
        (rows0.filter (fun r => !(isNaRow [r.course, r.day, r.start, r.stop]))) r hr hbad
      exact ⟨e, by simp only [loadFile, hstd, hdays, he]⟩
  · intro sid t rows0 r hstd hr hbad
    cases hdays : mapExcept (fun r => normalize_day (cellStr r.day))
        (rows0.filter (fun r => !(isNaRow [r.course, r.day, r.start, r.stop]))) with
    | error e => exact ⟨e, by simp only [loadFile, hstd, hdays]⟩
    | ok days =>
      cases hstarts : mapExcept (fun r => parse_time r.start)
          (rows0.filter (fun r => !(isNaRow [r.course, r.day, r.start, r.stop]))) with
      | error e => exact ⟨e, by simp only [loadFile, hstd, hdays, hstarts]⟩
      | ok starts =>
        obtain ⟨e, he⟩ := mapExcept_error_of_mem (fun r => parse_time r.stop)
          (rows0.filter (fun r => !(isNaRow [r.course, r.day, r.start, r.stop]))) r hr hbad
        exact ⟨e, by simp only [loadFile, hstd, hdays, hstarts, he]⟩

set_option maxHeartbeats 1000000 in
/-- Witness for C1's abort clauses at the mixed files `tblBadDay`
(day column) and `tblBadTime` (start column). -/
theorem c1_witness :
    (∃ e, loadFile "alice" tblBadDay = .error e)
    ∧ (∃ e, loadFile "alice" tblBadTime = .error e) :=
  ⟨c1_row_errors.2.2.2.2.1 "alice" tblBadDay
    [⟨.str "Math", .str "Funday", .str "09:00", .str "10:00"⟩,
     ⟨.str "Phys", .str "Mon", .str "09:00", .str "10:00"⟩]
    ⟨.str "Math", .str "Funday", .str "09:00", .str "10:00"⟩
    (by decide) (by decide) (by decide),
   c1_row_errors.2.2.2.2.2.1 "alice" tblBadTime
    [⟨.str "Math", .str "Mon", .str "nine", .str "10:00"⟩,
     ⟨.str "Phys", .str "Mon", .str "09:00", .str "10:00"⟩]
    ⟨.str "Math", .str "Mon", .str "nine", .str "10:00"⟩
    (by decide) (by decide) (by decide)⟩

-- ==========================================================
-- Sorting (pandas sort_values by Day, Start, Student, Course;
-- sorted() on paths and on the student set)
-- ==========================================================

/-- Insertion of `x` into `l`, before the first element not below it. -/
def insertSorted (le : α → α → Bool) (x : α) : List α → List α
  | [] => [x]
  | y :: ys => if le x y then x :: y :: ys else y :: insertSorted le x ys

/-- Comparison sort (the concrete algorithm is irrelevant to the claims;
only the ordering semantics of the key is). -/
def sortByLe (le : α → α → Bool) (l : List α) : List α :=
  l.foldr (insertSorted le) []

/-- Lexicographic comparison of character lists by code point — Python's
string comparison — continuing with `rest` on a tie. -/
def charsThen : List Char → List Char → Bool → Bool
  | [], [], rest => rest
  | [], _ :: _, _ => true
  | _ :: _, [], _ => false
  | a :: as, b :: bs, rest =>
    if a.toNat < b.toNat then true
    else if b.toNat < a.toNat then false
    else charsThen as bs rest

/-- Python `a <= b` on strings. -/
def strLE (a b : String) : Bool := charsThen a.data b.data true

/-- Numeric comparison continuing with `rest` on a tie (one step of a
lexicographic tuple comparison). -/
def natThen (x y : Nat) (rest : Bool) : Bool :=
  if x < y then true else if y < x then false else rest

def DAY_ORDER : List String :=
  ["Monday", "Tuesday", "Wednesday", "Thursday", "Friday", "Saturday", "Sunday"]

def TIME_STEP_MIN : Nat := 15

/-- Position of a canonical day in the ordered categorical `DAY_ORDER`. -/
def dayIdx (d : String) : Nat := DAY_ORDER.indexOf d

/-- The `sort_values(["Day", "Start", "Student", "Course"])` key order:
lexicographic on (categorical day index, start minutes, student, course). -/
def recLE (a b : ScheduleRecord) : Bool :=
  natThen (dayIdx a.day) (dayIdx b.day)
    (natThen (to_minutes a.start) (to_minutes b.start)
      (charsThen a.student.data b.student.data
        (charsThen a.course.data b.course.data true)))

theorem charsThen_total :
    ∀ (as bs : List Char) (r1 r2 : Bool), (r1 = true ∨ r2 = true) →
      charsThen as bs r1 = true ∨ charsThen bs as r2 = true := by
  intro as
  induction as with
  | nil =>
    intro bs r1 r2 h
    cases bs with
    | nil => exact h
    | cons b bt => left; rfl
  | cons a ta ih =>
    intro bs r1 r2 h
    cases bs with
    | nil => right; rfl
    | cons b bt =>
      by_cases h1 : a.toNat < b.toNat
      · left; simp [charsThen, h1]
      · by_cases h2 : b.toNat < a.toNat
        · right; simp [charsThen, h2]
        · rcases ih bt r1 r2 h with h' | h'
          · left; simp [charsThen, h1, h2, h']
          · right; simp [charsThen, h2, h1, h']

theorem charsThen_trans :
    ∀ (as bs cs : List Char) (r1 r2 r3 : Bool),
      (r1 = true → r2 = true → r3 = true) →
      charsThen as bs r1 = true → charsThen bs cs r2 = true →
      charsThen as cs r3 = true := by
  intro as
  induction as with
  | nil =>
    intro bs cs r1 r2 r3 himp h1 h2
    cases bs with
    | nil =>
      cases cs with
      | nil => exact himp h1 h2
      | cons c tc => rfl
    | cons b tb =>
      cases cs with
      | nil => simp [charsThen] at h2
      | cons c tc => rfl
  | cons a ta ih =>
    intro bs cs r1 r2 r3 himp h1 h2
    cases bs with
    | nil => simp [charsThen] at h1
    | cons b tb =>
      cases cs with
      | nil => simp [charsThen] at h2
      | cons c tc =>
        simp only [charsThen] at h1 h2 ⊢
        by_cases hab : a.toNat < b.toNat
        · by_cases hbc : b.toNat < c.toNat
          · rw [if_pos (by omega)]
          · rw [if_neg hbc] at h2
            by_cases hcb : c.toNat < b.toNat
            · rw [if_pos hcb] at h2; exact absurd h2 (by simp)
            · rw [if_neg hcb] at h2
              rw [if_pos (by omega)]
        · rw [if_neg hab] at h1
          by_cases hba : b.toNat < a.toNat
          · rw [if_pos hba] at h1; exact absurd h1 (by simp)
          · rw [if_neg hba] at h1
            by_cases hbc : b.toNat < c.toNat
            · rw [if_pos (by omega)]
            · rw [if_neg hbc] at h2
              by_cases hcb : c.toNat < b.toNat
              · rw [if_pos hcb] at h2; exact absurd h2 (by simp)
              · rw [if_neg hcb] at h2
                rw [if_neg (by omega), if_neg (by omega)]
                exact ih tb tc r1 r2 r3 himp h1 h2

theorem natThen_total (x y : Nat) (r1 r2 : Bool) (h : r1 = true ∨ r2 = true) :
    natThen x y r1 = true ∨ natThen y x r2 = true := by
  by_cases h1 : x < y
  · left; simp [natThen, h1]
  · by_cases h2 : y < x
    · right; simp [natThen, h2]
    · simp only [natThen, if_neg h1, if_neg h2]
      exact h

theorem natThen_trans (x y z : Nat) (r1 r2 r3 : Bool)
    (himp : r1 = true → r2 = true → r3 = true)
    (h1 : natThen x y r1 = true) (h2 : natThen y z r2 = true) :
    natThen x z r3 = true := by
  simp only [natThen] at h1 h2 ⊢
  by_cases hxy : x < y
  · by_cases hyz : y < z
    · rw [if_pos (by omega)]
    · rw [if_neg hyz] at h2
      by_cases hzy : z < y
      · rw [if_pos hzy] at h2; exact absurd h2 (by simp)
      · rw [if_neg hzy] at h2
        rw [if_pos (by omega)]
  · rw [if_neg hxy] at h1
    by_cases hyx : y < x
    · rw [if_pos hyx] at h1; exact absurd h1 (by simp)
    · rw [if_neg hyx] at h1
      by_cases hyz : y < z
      · rw [if_pos (by omega)]
      · rw [if_neg hyz] at h2
        by_cases hzy : z < y
        · rw [if_pos hzy] at h2; exact absurd h2 (by simp)
        · rw [if_neg hzy] at h2
          rw [if_neg (by omega), if_neg (by omega)]
          exact himp h1 h2

theorem strLE_total (a b : String) : strLE a b = true ∨ strLE b a = true :=
  charsThen_total a.data b.data true true (Or.inl rfl)

theorem strLE_trans (a b c : String) (h1 : strLE a b = true)
    (h2 : strLE b c = true) : strLE a c = true :=
  charsThen_trans a.data b.data c.data true true true (fun _ _ => rfl) h1 h2

theorem recLE_total (a b : ScheduleRecord) : recLE a b = true ∨ recLE b a = true := by
  unfold recLE
  apply natThen_total
  apply natThen_total
  apply charsThen_total
  apply charsThen_total
  left; rfl

theorem recLE_trans (a b c : ScheduleRecord) (h1 : recLE a b = true)
    (h2 : recLE b c = true) : recLE a c = true := by
  unfold recLE at h1 h2 ⊢
  refine natThen_trans _ _ _ _ _ _ ?_ h1 h2
  intro g1 g2
  refine natThen_trans _ _ _ _ _ _ ?_ g1 g2
  intro g3 g4
  refine charsThen_trans _ _ _ _ _ _ ?_ g3 g4
  intro g5 g6
  exact charsThen_trans _ _ _ _ _ _ (fun _ _ => rfl) g5 g6

theorem mem_insertSorted (le : α → α → Bool) (x z : α) (l : List α) :
    z ∈ insertSorted le x l ↔ z = x ∨ z ∈ l := by
  induction l with
  | nil => simp [insertSorted]
  | cons y ys ih =>
    rw [insertSorted]
    by_cases hxy : le x y = true
    · rw [if_pos hxy]
      simp [List.mem_cons]
    · rw [if_neg hxy]
      simp only [List.mem_cons, ih]
      constructor <;> (intro h; tauto)

theorem pairwise_insertSorted (le : α → α → Bool)
    (htot : ∀ a b, le a b = true ∨ le b a = true)
    (htrans : ∀ a b c, le a b = true → le b c = true → le a c = true)
    (x : α) (l : List α) (h : l.Pairwise (fun a b => le a b = true)) :
    (insertSorted le x l).Pairwise (fun a b => le a b = true) := by
  induction l with
  | nil => simp [insertSorted]
  | cons y ys ih =>
    rw [insertSorted]
    obtain ⟨hy, hys⟩ := List.pairwise_cons.mp h
    by_cases hxy : le x y = true
    · rw [if_pos hxy]
      refine List.pairwise_cons.mpr ⟨?_, h⟩
      intro z hz
      rcases List.mem_cons.mp hz with rfl | hz'
      · exact hxy
      · exact htrans x y z hxy (hy z hz')
    · rw [if_neg hxy]
      have hyx : le y x = true := (htot x y).resolve_left hxy
      refine List.pairwise_cons.mpr ⟨?_, ih hys⟩
      intro z hz
      rcases (mem_insertSorted le x z ys).mp hz with rfl | hz'
      · exact hyx
      · exact hy z hz'

theorem pairwise_sortByLe (le : α → α → Bool)
    (htot : ∀ a b, le a b = true ∨ le b a = true)
    (htrans : ∀ a b c, le a b = true → le b c = true → le a c = true)
    (l : List α) : (sortByLe le l).Pairwise (fun a b => le a b = true) := by
  induction l with
  | nil => simp [sortByLe]
  | cons x xs ih => exact pairwise_insertSorted le htot htrans x _ ih

theorem perm_insertSorted (le : α → α → Bool) (x : α) (l : List α) :
    List.Perm (insertSorted le x l) (x :: l) := by
  induction l with
  | nil => exact List.Perm.refl _
  | cons y ys ih =>
    rw [insertSorted]
    by_cases hxy : le x y = true
    · rw [if_pos hxy]
    · rw [if_neg hxy]
      exact (List.Perm.cons y ih).trans (List.Perm.swap x y ys)

theorem perm_sortByLe (le : α → α → Bool) (l : List α) :
    List.Perm (sortByLe le l) l := by
  induction l with
  | nil => exact List.Perm.refl _
  | cons x xs ih =>
    exact (perm_insertSorted le x (sortByLe le xs)).trans (List.Perm.cons x ih)

-- ==========================================================
-- Grid builder and pipeline
-- ==========================================================

/-- An occupancy-map key: (day, slot minutes, student). -/
abbrev CellKey : Type := String × Nat × String

/-- Association-list lookup (`key in cell_text` / `cell_text.get`). -/
def lookupKey (k : CellKey) : List (CellKey × List String) → Option (List String)
  | [] => none
  | p :: t => if p.1 = k then some p.2 else lookupKey k t

/-- `cell_text.setdefault(key, []).append(label)`: extend the entry in
place, or append a new key at the end (dict insertion order). -/
def addLabel (m : List (CellKey × List String)) (k : CellKey) (lab : String) :
    List (CellKey × List String) :=
  if (lookupKey k m).isSome then
    m.map (fun p => if p.1 = k then (p.1, p.2 ++ [lab]) else p)
  else m ++ [(k, [lab])]

/-- Reading a cell: the accumulated labels, `[]` when absent. -/
def lookupCell (m : List (CellKey × List String)) (k : CellKey) : List String :=
  (lookupKey k m).getD []

/-- `time.strftime("%H:%M")`. -/
def fmtHM (t : TimeOfDay) : String := pad2 t.hour ++ ":" ++ pad2 t.minute

/-- The cell label `f"{course}\n{start:%H:%M}–{end:%H:%M}"` — the
separator between the two times is an en dash (U+2013) in the source. -/
def recLabel (r : ScheduleRecord) : String :=
  r.course ++ "\n" ++ fmtHM r.start ++ "–" ++ fmtHM r.stop

/-- The (key, label) append events of the occupancy-building loop in
loop order: records (already sorted) outer, the record's slots inner;
records whose day is not in `days_present` are skipped. -/
def labelEvents (daysPresent : List String) (step : Nat)
    (recs : List ScheduleRecord) : List (CellKey × String) :=
  (recs.filter (fun r => daysPresent.contains r.day)).flatMap (fun r =>
    (recordSlots r.start r.stop step).map
      (fun slot => ((r.day, slot, r.student), recLabel r)))

/-- The occupancy map `cell_text` built by folding the append events. -/
def buildCellText (daysPresent : List String) (step : Nat)
    (recs : List ScheduleRecord) : List (CellKey × List String) :=
  (labelEvents daysPresent step recs).foldl (fun m e => addLabel m e.1 e.2) []

/-- `min(...)` over a nonempty column ( `0` is never reached: the
pipeline guards emptiness with `NoValidRecords` first). -/
def minStartOf (recs : List ScheduleRecord) : Nat :=
  match recs.map (fun r => to_minutes r.start) with
  | [] => 0
  | x :: xs => xs.foldl Nat.min x

def maxEndOf (recs : List ScheduleRecord) : Nat :=
  match recs.map (fun r => to_minutes r.stop) with
  | [] => 0
  | x :: xs => xs.foldl Nat.max x

/-- `sorted(set(students))`. -/
def dedup (l : List String) : List String :=
  l.foldl (fun acc s => if acc.contains s then acc else acc ++ [s]) []

/-- The pure model behind the Matrix and Legend sheets: everything the
renderer consumes. -/
structure MatrixModel where
  studentList : List String
  studentColors : List (String × String)
  daysPresent : List String
  gridStart : Nat
  gridEnd : Nat
  sortedRecords : List ScheduleRecord
  cellText : List (CellKey × List String)
deriving DecidableEq, Repr

/-- The grid-building phase: sort the records, compute grid bounds and
days present, fold the occupancy map, and assign colors to the sorted
deduplicated student list. -/
def buildModel (recs : List ScheduleRecord) (students : List String) : MatrixModel :=
  let sorted := sortByLe recLE recs
  let studentList := sortByLe strLE (dedup students)
  let gridStart := floor_minutes (minStartOf sorted) TIME_STEP_MIN
  let gridEnd := ceil_minutes (maxEndOf sorted) TIME_STEP_MIN + TIME_STEP_MIN
  let daysPresent0 := DAY_ORDER.filter (fun d => sorted.any (fun r => r.day == d))
  let daysPresent := if daysPresent0.isEmpty then DAY_ORDER.take 5 else daysPresent0
  { studentList := studentList,
    studentColors := studentList.map (fun s => (s, student_color_hex s)),
    daysPresent := daysPresent,
    gridStart := gridStart,
    gridEnd := gridEnd,
    sortedRecords := sorted,
    cellText := buildCellText daysPresent TIME_STEP_MIN sorted }

/-- The whole pipeline up to (but not including) spreadsheet rendering:
glob results sorted by name, `NoInputFiles` on empty, per-file loading
(fail-fast), `NoValidRecords` when nothing survives, then the model. -/
def pipeline (inputs : List (String × Table)) : Except Err MatrixModel :=
  let paths := sortByLe (fun p q => strLE p.1 q.1) inputs
  if paths.isEmpty then .error .NoInputFiles
  else
    match mapExcept (fun p => loadFile (splitextStem p.1) p.2) paths with
    | .error e => .error e
    | .ok recss =>
      let records := recss.flatten
      if records.isEmpty then .error .NoValidRecords
      else .ok (buildModel records (paths.map (fun p => splitextStem p.1)))

-- ==========================================================
-- Occupancy-map lemmas
-- ==========================================================

theorem lookupKey_append_right (m1 m2 : List (CellKey × List String)) (k : CellKey)
    (h : lookupKey k m1 = none) : lookupKey k (m1 ++ m2) = lookupKey k m2 := by
  induction m1 with
  | nil => rfl
  | cons p t ih =>
    simp only [lookupKey, List.cons_append] at h ⊢
    by_cases hp : p.1 = k
    · rw [if_pos hp] at h; cases h
    · rw [if_neg hp] at h ⊢
      exact ih h

theorem lookupKey_append_left (m1 m2 : List (CellKey × List String)) (k : CellKey)
    (v : List String) (h : lookupKey k m1 = some v) :
    lookupKey k (m1 ++ m2) = some v := by
  induction m1 with
  | nil => cases h
  | cons p t ih =>
    simp only [lookupKey, List.cons_append] at h ⊢
    by_cases hp : p.1 = k
    · rw [if_pos hp] at h ⊢; exact h
    · rw [if_neg hp] at h ⊢
      exact ih h

theorem lookupKey_map_update (m : List (CellKey × List String)) (k k' : CellKey)
    (lab : String) (hne : k' ≠ k) :
    lookupKey k' (m.map (fun p => if p.1 = k then (p.1, p.2 ++ [lab]) else p))
      = lookupKey k' m := by
  induction m with
  | nil => rfl
  | cons p t ih =>
    rw [List.map_cons]
    by_cases hp : p.1 = k
    · rw [if_pos hp]
      simp only [lookupKey]
      rw [if_neg (by rw [hp]; exact fun he => hne he.symm),
        if_neg (by rw [hp]; exact fun he => hne he.symm)]
      exact ih
    · rw [if_neg hp]
      simp only [lookupKey]
      by_cases hq : p.1 = k'
      · rw [if_pos hq, if_pos hq]
      · rw [if_neg hq, if_neg hq]
        exact ih

theorem lookupKey_map_update_self (m : List (CellKey × List String)) (k : CellKey)
    (v : List String) (lab : String) (h : lookupKey k m = some v) :
    lookupKey k (m.map (fun p => if p.1 = k then (p.1, p.2 ++ [lab]) else p))
      = some (v ++ [lab]) := by
  induction m with
  | nil => cases h
  | cons p t ih =>
    simp only [lookupKey] at h
    rw [List.map_cons]
    by_cases hp : p.1 = k
    · rw [if_pos hp] at h
      injection h with hv
      subst hv
      rw [if_pos hp]
      simp only [lookupKey]
      rw [if_pos hp]
    · rw [if_neg hp] at h
      rw [if_neg hp]
      simp only [lookupKey]
      rw [if_neg hp]
      exact ih h

/-- One `setdefault(...).append(...)` seen through a cell read: the
appended label lands at the end of exactly its own key's cell. -/
theorem lookup_addLabel (m : List (CellKey × List String)) (k k' : CellKey)
    (lab : String) :
    lookupCell (addLabel m k lab) k' =
      if k' = k then lookupCell m k' ++ [lab] else lookupCell m k' := by
  unfold addLabel
  cases hk : lookupKey k m with
  | none =>
    simp only [hk, Option.isSome_none, Bool.false_eq_true, if_false]
    by_cases hkk : k' = k
    · subst hkk
      unfold lookupCell
      rw [lookupKey_append_right m [(k', [lab])] k' hk, hk]
      simp [lookupKey]
    · rw [if_neg hkk]
      unfold lookupCell
      cases hk' : lookupKey k' m with
      | some v => rw [lookupKey_append_left m [(k, [lab])] k' v hk']
      | none =>
        rw [lookupKey_append_right m [(k, [lab])] k' hk']
        simp only [lookupKey]
        rw [if_neg (fun he => hkk he.symm)]
  | some v =>
    simp only [hk, Option.isSome_some, if_true]
    by_cases hkk : k' = k
    · subst hkk
      unfold lookupCell
      rw [lookupKey_map_update_self m k' v lab hk, hk]
      simp
    · rw [if_neg hkk]
      unfold lookupCell
      rw [lookupKey_map_update m k k' lab hkk]

/-- The occupancy fold through a cell read: a cell accumulates exactly
the labels of the events keyed at it, in event order. -/
theorem lookup_foldl_addLabel (events : List (CellKey × String))
    (m : List (CellKey × List String)) (k : CellKey) :
    lookupCell (events.foldl (fun m e => addLabel m e.1 e.2) m) k =
      lookupCell m k ++ (events.filter (fun e => e.1 == k)).map (fun e => e.2) := by
  induction events generalizing m with
  | nil => simp
  | cons e es ih =>
    rw [List.foldl_cons, ih, lookup_addLabel]
    by_cases hk : k = e.1
    · rw [if_pos hk]
      have hbeq : (e.1 == k) = true := beq_iff_eq.mpr hk.symm
      simp only [List.filter_cons, hbeq, if_true, List.map_cons, List.append_assoc,
        List.cons_append, List.nil_append]
    · rw [if_neg hk]
      have hbeq : (e.1 == k) = false := beq_eq_false_iff_ne.mpr (fun h => hk h.symm)
      simp only [List.filter_cons, hbeq, Bool.false_eq_true, if_false]

theorem lookupKey_eq_none_of_forall (m : List (CellKey × List String)) (k : CellKey)
    (h : ∀ p ∈ m, p.1 ≠ k) : lookupKey k m = none := by
  induction m with
  | nil => rfl
  | cons p t ih =>
    simp only [lookupKey]
    rw [if_neg (h p (by simp))]
    exact ih (fun q hq => h q (by simp [hq]))



def aliceRec : ScheduleRecord := ⟨"alice", "Math", "Monday", ⟨9, 0, 0⟩, ⟨10, 0, 0⟩⟩
def bobRec : ScheduleRecord := ⟨"bob", "Math", "Monday", ⟨9, 0, 0⟩, ⟨10, 0, 0⟩⟩
def aliceChem : ScheduleRecord := ⟨"alice", "Chem", "Monday", ⟨9, 30, 0⟩, ⟨10, 30, 0⟩⟩

/-- Counterexample to C2 as stated: the separator between the two times
in a cell label is an en dash (U+2013), not the ASCII hyphen of the
claimed format: the cell holds `["Math\n09:00–10:00"]`, not
`["Math\n09:00-10:00"]`. -/
theorem c2_counterexample :
    lookupCell (buildModel [aliceRec, bobRec] ["alice", "bob"]).cellText
      ("Monday", 540, "alice") ≠ ["Math\n09:00-10:00"] := by decide

set_option maxHeartbeats 2000000 in
set_option maxRecDepth 100000 in
/-- Claim C2 amended (label separator corrected to the en dash): with
one Monday 09:00–10:00 "Math" record each for "alice" and "bob", both
occupancy cells at (Monday, 09:00) hold exactly
`["Math\n09:00–10:00"]`; cells at slots before 09:00 or at/after 10:00
are empty for both; overlapping records of one student accumulate
labels in record-processing order (shown concretely and in general:
each cell equals the labels of its key's events in event order), and
the processed order is the records sorted by
(day, start, student, course). -/
theorem c2_occupancy :
    (lookupCell (buildModel [aliceRec, bobRec] ["alice", "bob"]).cellText
        ("Monday", 540, "alice") = ["Math\n09:00–10:00"]
      ∧ lookupCell (buildModel [aliceRec, bobRec] ["alice", "bob"]).cellText
        ("Monday", 540, "bob") = ["Math\n09:00–10:00"])
    ∧ (∀ s : Nat, s < 540 ∨ 600 ≤ s →
        lookupCell (buildModel [aliceRec, bobRec] ["alice", "bob"]).cellText
          ("Monday", s, "alice") = []
        ∧ lookupCell (buildModel [aliceRec, bobRec] ["alice", "bob"]).cellText
          ("Monday", s, "bob") = [])
    ∧ lookupCell (buildModel [aliceChem, aliceRec] ["alice"]).cellText
        ("Monday", 570, "alice") = ["Math\n09:00–10:00", "Chem\n09:30–10:30"]
    ∧ (∀ (daysPresent : List String) (step : Nat) (recs : List ScheduleRecord)
        (k : CellKey),
        lookupCell (buildCellText daysPresent step recs) k =
          ((labelEvents daysPresent step recs).filter (fun e => e.1 == k)).map
            (fun e => e.2))
    ∧ (∀ (recs : List ScheduleRecord) (students : List String),
        (buildModel recs students).sortedRecords = sortByLe recLE recs
        ∧ List.Perm (sortByLe recLE recs) recs
        ∧ (sortByLe recLE recs).Pairwise (fun a b => recLE a b = true)) := by
  refine ⟨⟨by decide, by decide⟩, ?_, by decide, ?_, ?_⟩
  · have hct : (buildModel [aliceRec, bobRec] ["alice", "bob"]).cellText =
      [(("Monday", 540, "alice"), ["Math\n09:00–10:00"]),
       (("Monday", 555, "alice"), ["Math\n09:00–10:00"]),
       (("Monday", 570, "alice"), ["Math\n09:00–10:00"]),
       (("Monday", 585, "alice"), ["Math\n09:00–10:00"]),
       (("Monday", 540, "bob"), ["Math\n09:00–10:00"]),
       (("Monday", 555, "bob"), ["Math\n09:00–10:00"]),
       (("Monday", 570, "bob"), ["Math\n09:00–10:00"]),
       (("Monday", 585, "bob"), ["Math\n09:00–10:00"])] := by decide
    intro s hs
    rw [hct]
    constructor <;>
      (unfold lookupCell
       rw [lookupKey_eq_none_of_forall]
       · rfl
       · intro p hp
         fin_cases hp <;> intro he <;>
           (injection he with h1 h23
            injection h23 with h2 h3
            first
            | exact absurd h3 (by decide)
            | omega))
  · intro daysPresent step recs k
    unfold buildCellText
    rw [lookup_foldl_addLabel]
    simp [lookupCell, lookupKey]
  · intro recs students
    exact ⟨rfl, perm_sortByLe recLE recs,
      pairwise_sortByLe recLE recLE_total recLE_trans recs⟩

-- ==========================================================
-- Pipeline-level claims
-- ==========================================================

/-- Claim C8: the pipeline fails with `NoInputFiles` when zero sources
match (before anything else happens), and with `NoValidRecords` when
files were read but zero rows survive across all sources; in both cases
the result is an error, so no output is produced. -/
theorem c8_fatal_emptiness :
    pipeline [] = .error .NoInputFiles
    ∧ (∀ (inputs : List (String × Table)) (recss : List (List ScheduleRecord)),
        inputs ≠ [] →
        mapExcept (fun p => loadFile (splitextStem p.1) p.2)
            (sortByLe (fun p q => strLE p.1 q.1) inputs) = .ok recss →
        recss.flatten = [] →
        pipeline inputs = .error .NoValidRecords) := by
  refine ⟨rfl, ?_⟩
  intro inputs recss hne hload hflat
  have hpne : sortByLe (fun p q : String × Table => strLE p.1 q.1) inputs ≠ [] := by
    intro h
    have hperm := perm_sortByLe (fun p q : String × Table => strLE p.1 q.1) inputs
    rw [h] at hperm
    exact hne hperm.symm.eq_nil
  have hcond : ¬((sortByLe (fun p q : String × Table => strLE p.1 q.1) inputs).isEmpty = true) :=
    fun hh => hpne (List.isEmpty_iff.mp hh)
  simp only [pipeline, if_neg hcond, hload, hflat, List.isEmpty_nil, if_true]

/-- Witness for C8's `NoValidRecords` clause: one readable file whose
single row has an empty course, so zero records survive. -/
theorem c8_witness :
    pipeline [("alice.xlsx", ⟨["course", "day", "start", "end"],
      [[.str "", .str "Mon", .str "09:00", .str "10:00"]]⟩)] = .error .NoValidRecords :=
  c8_fatal_emptiness.2 _ [[]] (by decide) (by decide) (by decide)

-- ==========================================================
-- Grid bounds (C4)
-- ==========================================================

theorem foldl_min_spec (xs : List Nat) : ∀ x : Nat,
    (xs.foldl Nat.min x = x ∨ xs.foldl Nat.min x ∈ xs)
    ∧ xs.foldl Nat.min x ≤ x ∧ (∀ y ∈ xs, xs.foldl Nat.min x ≤ y) := by
  induction xs with
  | nil => intro x; exact ⟨Or.inl rfl, le_refl x, by simp⟩
  | cons z zs ih =>
    intro x
    obtain ⟨hmem, hle, hall⟩ := ih (Nat.min x z)
    have hm : Nat.min x z = x ∨ Nat.min x z = z := by
      rcases Nat.le_total x z with h | h
      · exact Or.inl (min_eq_left h)
      · exact Or.inr (min_eq_right h)
    rw [List.foldl_cons]
    refine ⟨?_, ?_, ?_⟩
    · rcases hmem with h | h
      · rcases hm with h2 | h2
        · exact Or.inl (h.trans h2)
        · exact Or.inr (by rw [h, h2]; exact List.mem_cons_self z zs)
      · exact Or.inr (List.mem_cons_of_mem z h)
    · exact hle.trans (Nat.min_le_left x z)
    · intro y hy
      rcases List.mem_cons.mp hy with rfl | hy'
      · exact hle.trans (Nat.min_le_right x y)
      · exact hall y hy'

theorem foldl_max_spec (xs : List Nat) : ∀ x : Nat,
    (xs.foldl Nat.max x = x ∨ xs.foldl Nat.max x ∈ xs)
    ∧ x ≤ xs.foldl Nat.max x ∧ (∀ y ∈ xs, y ≤ xs.foldl Nat.max x) := by
  induction xs with
  | nil => intro x; exact ⟨Or.inl rfl, le_refl x, by simp⟩
  | cons z zs ih =>
    intro x
    obtain ⟨hmem, hle, hall⟩ := ih (Nat.max x z)
    have hm : Nat.max x z = x ∨ Nat.max x z = z := by
      rcases Nat.le_total z x with h | h
      · exact Or.inl (max_eq_left h)
      · exact Or.inr (max_eq_right h)
    rw [List.foldl_cons]
    refine ⟨?_, ?_, ?_⟩
    · rcases hmem with h | h
      · rcases hm with h2 | h2
        · exact Or.inl (h.trans h2)
        · exact Or.inr (by rw [h, h2]; exact List.mem_cons_self z zs)
      · exact Or.inr (List.mem_cons_of_mem z h)
    · exact (Nat.le_max_left x z).trans hle
    · intro y hy
      rcases List.mem_cons.mp hy with rfl | hy'
      · exact (Nat.le_max_right x y).trans hle
      · exact hall y hy'

/-- `min(df_all["Start"])` really is the least start among the records. -/
theorem minStartOf_spec (recs : List ScheduleRecord) (hne : recs ≠ []) :
    (∃ r ∈ recs, minStartOf recs = to_minutes r.start)
    ∧ ∀ r ∈ recs, minStartOf recs ≤ to_minutes r.start := by
  cases recs with
  | nil => exact absurd rfl hne
  | cons r0 rest =>
    unfold minStartOf
    simp only [List.map_cons]
    obtain ⟨hmem, hle, hall⟩ :=
      foldl_min_spec (rest.map (fun r => to_minutes r.start)) (to_minutes r0.start)
    constructor
    · rcases hmem with h | h
      · exact ⟨r0, List.mem_cons_self r0 rest, h⟩
      · obtain ⟨r, hr, heq⟩ := List.mem_map.mp h
        exact ⟨r, List.mem_cons_of_mem r0 hr, heq ▸ rfl⟩
    · intro r hr
      rcases List.mem_cons.mp hr with rfl | hr'
      · exact hle
      · exact hall _ (List.mem_map.mpr ⟨r, hr', rfl⟩)

/-- `max(df_all["End"])` really is the greatest end among the records. -/
theorem maxEndOf_spec (recs : List ScheduleRecord) (hne : recs ≠ []) :
    (∃ r ∈ recs, maxEndOf recs = to_minutes r.stop)
    ∧ ∀ r ∈ recs, to_minutes r.stop ≤ maxEndOf recs := by
  cases recs with
  | nil => exact absurd rfl hne
  | cons r0 rest =>
    unfold maxEndOf
    simp only [List.map_cons]
    obtain ⟨hmem, hle, hall⟩ :=
      foldl_max_spec (rest.map (fun r => to_minutes r.stop)) (to_minutes r0.stop)
    constructor
    · rcases hmem with h | h
      · exact ⟨r0, List.mem_cons_self r0 rest, h⟩
      · obtain ⟨r, hr, heq⟩ := List.mem_map.mp h
        exact ⟨r, List.mem_cons_of_mem r0 hr, heq ▸ rfl⟩
    · intro r hr
      rcases List.mem_cons.mp hr with rfl | hr'
      · exact hle
      · exact hall _ (List.mem_map.mpr ⟨r, hr', rfl⟩)

/-- Claim C4: for a nonempty record set (whose records satisfy the
intended `start ≤ end` shape), `gridStart = floor(minStart, step)` and
`gridEnd = ceil(maxEnd, step) + step`, where minStart/maxEnd are the
least start and greatest end in minutes; the grid therefore has exactly
one trailing slot at/after `ceil(maxEnd)` — `ceil(maxEnd)` itself, the
grid's last slot. -/
theorem c4_grid_bounds (recs : List ScheduleRecord) (students : List String)
    (hne : recs ≠ []) (hse : ∀ r ∈ recs, to_minutes r.start ≤ to_minutes r.stop) :
    (buildModel recs students).gridStart
        = floor_minutes (minStartOf (sortByLe recLE recs)) TIME_STEP_MIN
    ∧ (buildModel recs students).gridEnd
        = ceil_minutes (maxEndOf (sortByLe recLE recs)) TIME_STEP_MIN + TIME_STEP_MIN
    ∧ (∃ r ∈ recs, minStartOf (sortByLe recLE recs) = to_minutes r.start)
    ∧ (∀ r ∈ recs, minStartOf (sortByLe recLE recs) ≤ to_minutes r.start)
    ∧ (∃ r ∈ recs, maxEndOf (sortByLe recLE recs) = to_minutes r.stop)
    ∧ (∀ r ∈ recs, to_minutes r.stop ≤ maxEndOf (sortByLe recLE recs))
    ∧ ceil_minutes (maxEndOf (sortByLe recLE recs)) TIME_STEP_MIN
        ∈ iter_slots (buildModel recs students).gridStart
            (buildModel recs students).gridEnd TIME_STEP_MIN
    ∧ (∀ s ∈ iter_slots (buildModel recs students).gridStart
          (buildModel recs students).gridEnd TIME_STEP_MIN,
        s ≤ ceil_minutes (maxEndOf (sortByLe recLE recs)) TIME_STEP_MIN) := by
  have hperm := perm_sortByLe recLE recs
  have hsne : sortByLe recLE recs ≠ [] := by
    intro h
    rw [h] at hperm
    exact hne hperm.symm.eq_nil
  obtain ⟨⟨rmin, hrmin_mem, hrmin⟩, hminle⟩ := minStartOf_spec _ hsne
  obtain ⟨⟨rmax, hrmax_mem, hrmax⟩, hmaxge⟩ := maxEndOf_spec _ hsne
  have hgs : (buildModel recs students).gridStart
      = floor_minutes (minStartOf (sortByLe recLE recs)) TIME_STEP_MIN := rfl
  have hge : (buildModel recs students).gridEnd
      = ceil_minutes (maxEndOf (sortByLe recLE recs)) TIME_STEP_MIN + TIME_STEP_MIN := rfl
  have hminmax : minStartOf (sortByLe recLE recs) ≤ maxEndOf (sortByLe recLE recs) := by
    calc minStartOf (sortByLe recLE recs) ≤ to_minutes rmin.start := hminle rmin hrmin_mem
    _ ≤ to_minutes rmin.stop := hse rmin (hperm.mem_iff.mp hrmin_mem)
    _ ≤ maxEndOf (sortByLe recLE recs) := hmaxge rmin hrmin_mem
  refine ⟨hgs, hge, ⟨rmin, hperm.mem_iff.mp hrmin_mem, hrmin⟩,
    fun r hr => hminle r (hperm.mem_iff.mpr hr),
    ⟨rmax, hperm.mem_iff.mp hrmax_mem, hrmax⟩,
    fun r hr => hmaxge r (hperm.mem_iff.mpr hr), ?_, ?_⟩
  · rw [hgs, hge]
    rw [mem_iter_slots _ _ _ _ (by decide)]
    refine ⟨?_, ?_, ?_⟩ <;>
      (simp only [floor_minutes, ceil_minutes, TIME_STEP_MIN]; omega)
  · intro s hs
    rw [hgs, hge, mem_iter_slots _ _ _ _ (by decide)] at hs
    obtain ⟨h1, h2, h3⟩ := hs
    simp only [floor_minutes, ceil_minutes, TIME_STEP_MIN] at h1 h2 h3 ⊢
    omega

/-- Witness for C4 at a single-record input. -/
theorem c4_witness :
    (buildModel [aliceRec] ["alice"]).gridStart
      = floor_minutes (minStartOf (sortByLe recLE [aliceRec])) TIME_STEP_MIN :=
  (c4_grid_bounds [aliceRec] ["alice"] (by decide) (by decide)).1

-- ==========================================================
-- Determinism (C9)
-- ==========================================================

/-- Claim C9: the pipeline is deterministic — equal inputs give equal
Matrix/Legend models (the embedding is a pure function), and
`student_color_hex` depends on nothing but the identifier string; the
student column order is the sorted deduplicated student list and the
legend colors are a pure map over it. -/
theorem c9_deterministic :
    (∀ inputs : List (String × Table), pipeline inputs = pipeline inputs)
    ∧ (∀ s t : String, s = t → student_color_hex s = student_color_hex t)
    ∧ (∀ (recs : List ScheduleRecord) (students : List String),
        (buildModel recs students).studentList.Pairwise (fun a b => strLE a b = true)
        ∧ (buildModel recs students).studentColors
            = (buildModel recs students).studentList.map
                (fun s => (s, student_color_hex s))) :=
  ⟨fun _ => rfl, fun s t h => by rw [h],
   fun recs students =>
     ⟨pairwise_sortByLe strLE strLE_total strLE_trans _, rfl⟩⟩

/-- Witness for C9's color-purity clause. -/
theorem c9_witness : student_color_hex "alice" = student_color_hex "alice" :=
  c9_deterministic.2.1 "alice" "alice" rfl

/-- Witness for C2's empty-cell clause at slot 600 (10:00). -/
theorem c2_witness :
    lookupCell (buildModel [aliceRec, bobRec] ["alice", "bob"]).cellText
      ("Monday", 600, "alice") = []
    ∧ lookupCell (buildModel [aliceRec, bobRec] ["alice", "bob"]).cellText
      ("Monday", 600, "bob") = [] :=
  c2_occupancy.2.1 600 (Or.inr (by decide))
end CalendarGen
